import Mathlib

/-!
Verification of the publisher-side media track receiver
(`pkg/rtc/mediatrackreceiver.go`).

The Go methods of `MediaTrackReceiver` are embedded as pure functions over an
explicit state record `MTR`.  Mutation of the guarded fields
(`receivers`, `trackInfo`, `potentialCodecs`, `state`, `onClose`) becomes
functional update; callbacks that the Go code invokes after releasing the lock
are returned as explicit event values.  Protobuf enums (`VideoQuality`,
ordinals 0 = LOW, 1 = MEDIUM, 2 = HIGH, 3 = OFF) are `Nat`, matching their
wire representation as non-negative integers.  `strings.EqualFold` on codec
mime strings is modelled as equality of ASCII-lowercased strings.
Slot identity (Go pointer identity of `*simulcastReceiver`) is modelled with
an allocation counter `sid`.
-/

namespace MediaTrack

/-- Track kind (`livekit.TrackType`). -/
inductive TrackType where
  | audio
  | video
  | data
deriving DecidableEq

/-- `livekit.VideoLayer`: quality is the protobuf enum ordinal. -/
structure VideoLayer where
  quality : Nat
  width : Nat
  height : Nat
  ssrc : Nat
deriving DecidableEq

/-- `livekit.SimulcastCodecInfo` entry of `TrackInfo.Codecs`. -/
structure CodecInfo where
  mimeType : String
  mid : String
  cid : String
  layers : List VideoLayer
deriving DecidableEq

/-- The fields of `livekit.TrackInfo` that the verified methods read or write. -/
structure TrackInfo where
  type : TrackType
  width : Nat
  height : Nat
  muted : Bool
  mimeType : String
  mid : String
  layers : List VideoLayer
  codecs : List CodecInfo
deriving DecidableEq

/-- The codec parameters of a receiver (`webrtc.RTPCodecParameters`); only the
mime type is read by this file's code. -/
structure Codec where
  mimeType : String
deriving DecidableEq

/-- A real per-codec receive pipeline (`sfu.TrackReceiver` implementation other
than `DummyReceiver`); only its codec parameters are relevant here. -/
structure Receiver where
  codec : Codec
deriving DecidableEq

/-- The inner `sfu.TrackReceiver` of a slot.  Modelled from the spec:
`DummyReceiver` (announced-but-unpublished placeholder, not under `src/`)
stores the provisional codec parameters and header-extension set and holds an
optional delegate; `Upgrade` sets the delegate and operations proxy to it when
set (`Receiver()` returns the delegate or nil). -/
inductive Inner where
  | dummy (codec : Codec) (exts : List String) (delegate : Option Receiver)
  | real (r : Receiver)
deriving DecidableEq

/-- `simulcastReceiver`: inner receiver plus priority.  `sid` models Go pointer
identity of the slot (allocation order). -/
structure Slot where
  sid : Nat
  inner : Inner
  priority : Int
deriving DecidableEq

/-- ASCII lower-casing of one character. -/
def charFold (c : Char) : Char :=
  if 65 ≤ c.toNat ∧ c.toNat ≤ 90 then Char.ofNat (c.toNat + 32) else c

/-- ASCII lower-cased character sequence of a string. -/
def strFold (s : String) : List Char :=
  s.data.map charFold

/-- `strings.EqualFold` restricted to ASCII mime strings: equality of the
lowercased forms. -/
def eqFold (a b : String) : Bool :=
  strFold a == strFold b

/-- `TrackReceiver.Codec()` of a slot's inner receiver: a dummy proxies to its
delegate when upgraded, else reports its provisional codec. -/
def Inner.codecOf : Inner → Codec
  | .dummy c _ none => c
  | .dummy _ _ (some r) => r.codec
  | .real r => r.codec

/-- Mime type reported by a slot's inner receiver. -/
def slotMime (s : Slot) : String :=
  s.inner.codecOf.mimeType

/-- Case-folded mime of a slot; the key for the duplicate-free invariant. -/
def slotKey (s : Slot) : List Char :=
  strFold (slotMime s)

/-- Go type assertion `r.TrackReceiver.(*DummyReceiver)` succeeding. -/
def Inner.isDummy : Inner → Bool
  | .dummy _ _ _ => true
  | .real _ => false

/-- `dr != nil && dr.Receiver() != nil`: a dummy whose delegate is set. -/
def Inner.isUpgradedDummy : Inner → Bool
  | .dummy _ _ (some _) => true
  | _ => false

/-- `DummyReceiver.Upgrade`: swap the delegate to the supplied real receiver
(modelled from the spec; a non-dummy inner is unchanged). -/
def Inner.upgrade : Inner → Receiver → Inner
  | .dummy c e _, r => .dummy c e (some r)
  | i, _ => i

/-- `mediaTrackReceiverState`. -/
inductive MTRState where
  | stateOpen
  | stateClosing
  | stateClosed
deriving DecidableEq

/-- Ordinal of a state, following the Go iota order. -/
def MTRState.rank : MTRState → Nat
  | .stateOpen => 0
  | .stateClosing => 1
  | .stateClosed => 2

/-- Observable effects that `Close` produces after releasing the lock. -/
inductive Event where
  | stateChange (s : MTRState)
  | hookCall (h : Nat)
deriving DecidableEq

/-- The guarded state of a `MediaTrackReceiver`.  `onSetupReceiver` records
whether the hook is set; `onClose` holds hook identifiers in insertion order;
`nextSid` is the slot allocation counter. -/
structure MTR where
  receivers : List Slot
  trackInfo : TrackInfo
  potentialCodecs : List Codec
  state : MTRState
  onSetupReceiver : Bool
  onClose : List Nat
  nextSid : Nat
deriving DecidableEq

/-- Slot ordering used by `sort.Slice(receivers, ...)`. -/
def slotLE (a b : Slot) : Prop :=
  a.priority ≤ b.priority

instance : DecidableRel slotLE :=
  fun a b => Int.decLe a.priority b.priority

instance : IsTotal Slot slotLE :=
  ⟨fun a b => Int.le_total a.priority b.priority⟩

instance : IsTrans Slot slotLE :=
  ⟨fun _ _ _ hab hbc => le_trans hab hbc⟩

/-- The upgrade scan of `SetupReceiver` (lines 163-172): walk the slots and
upgrade the first one whose mime matches case-insensitively and whose inner is
a `DummyReceiver`; report whether an upgrade happened. -/
def upgradeFirst (r : Receiver) : List Slot → Bool × List Slot
  | [] => (false, [])
  | s :: rest =>
    if eqFold (slotMime s) r.codec.mimeType && s.inner.isDummy then
      (true, { s with inner := s.inner.upgrade r } :: rest)
    else
      let p := upgradeFirst r rest
      (p.1, s :: p.2)

/-- The `TrackInfo` update of `SetupReceiver` (lines 181-194): when `mid` is
non-empty, priority 0 overwrites the top-level mime and mid, and the codec at
index `priority` gets the new mime and mid. -/
def applyMid (ti : TrackInfo) (rmime : String) (priority : Int) (mid : String) :
    TrackInfo :=
  if mid ≠ "" then
    let ti₁ :=
      if priority = 0 then { ti with mimeType := rmime, mid := mid } else ti
    { ti₁ with
      codecs := ti₁.codecs.mapIdx fun j ci =>
        if (j : Int) = priority then { ci with mimeType := rmime, mid := mid }
        else ci }
  else ti

/-- `SetupReceiver` (lines 152-215).  Returns the new state and the argument of
the `onSetupReceiver` callback run after the lock is released (`none` when the
track is not open or the hook is unset). -/
def setupReceiver (σ : MTR) (r : Receiver) (priority : Int) (mid : String) :
    MTR × Option String :=
  if σ.state = .stateOpen then
    let ur := upgradeFirst r σ.receivers
    let rs :=
      if ur.1 then ur.2
      else σ.receivers ++ [⟨σ.nextSid, .real r, priority⟩]
    ({ σ with
        receivers := List.insertionSort slotLE rs,
        trackInfo := applyMid σ.trackInfo r.codec.mimeType priority mid,
        nextSid := if ur.1 then σ.nextSid else σ.nextSid + 1 },
      if σ.onSetupReceiver then some r.codec.mimeType else none)
  else (σ, none)

/-- `dependencydescriptor.ExtensionURI`. -/
def ddExtensionURI : String :=
  "https://aomediacodec.github.io/av1-rtp-spec/#dependency-descriptor-extension"

/-- Modelled from the spec: `sfu.IsSvcCodec` (not under `src/`) — the SVC
codecs are AV1 and VP9. -/
def isSvcCodec (mime : String) : Bool :=
  eqFold mime "video/av1" || eqFold mime "video/vp9"

/-- The seeding loop of `SetPotentialCodecs` (lines 230-248): for each codec,
indexed by its position, append a dummy slot unless a slot with that mime
(case-insensitive) already exists; non-SVC codecs get the header list with the
dependency-descriptor extension removed.  Returns the slots and the advanced
allocation counter. -/
def addPotential (headers hwdd : List String) :
    List Slot → Nat → Nat → List Codec → List Slot × Nat
  | rs, sid, _, [] => (rs, sid)
  | rs, sid, i, c :: cs =>
    if rs.any fun s => eqFold c.mimeType (slotMime s) then
      addPotential headers hwdd rs sid (i + 1) cs
    else
      addPotential headers hwdd
        (rs ++ [⟨sid,
          .dummy c (if isSvcCodec c.mimeType then headers else hwdd) none,
          (i : Int)⟩])
        (sid + 1) (i + 1) cs

/-- `SetPotentialCodecs` (lines 217-254). -/
def setPotentialCodecs (σ : MTR) (codecs : List Codec) (headers : List String) :
    MTR :=
  let hwdd := headers.filter fun h => h ≠ ddExtensionURI
  let p := addPotential headers hwdd σ.receivers σ.nextSid 0 codecs
  { σ with
    potentialCodecs := codecs,
    receivers := List.insertionSort slotLE p.1,
    nextSid := p.2 }

/-- Placeholder slot used only as the default of `List.getLastD` below; the
call site guarantees the list is non-empty. -/
def defaultSlot : Slot :=
  ⟨0, .real ⟨⟨""⟩⟩, 0⟩

/-- The slot-list mutation of `ClearReceiver` (lines 258-266): the first slot
whose mime matches case-insensitively is overwritten with the last slot and the
list is truncated by one; no match leaves the list unchanged.  The
`willBeResumed` flag is only forwarded to the subscriptions collaborator and
does not affect the slot list. -/
def clearList (rs : List Slot) (mime : String) (_willBeResumed : Bool) :
    List Slot :=
  match rs.findIdx? (fun s => eqFold (slotMime s) mime) with
  | none => rs
  | some i => (rs.set i (rs.getLastD defaultSlot)).dropLast

/-- `ClearReceiver` (lines 256-271); removal of subscribers happens in the
external subscriptions collaborator. -/
def clearReceiver (σ : MTR) (mime : String) (willBeResumed : Bool) : MTR :=
  { σ with receivers := clearList σ.receivers mime willBeResumed }

/-- `SetClosing` (lines 304-310): only an open track moves to closing. -/
def setClosing (σ : MTR) : MTR :=
  if σ.state = .stateOpen then { σ with state := .stateClosing } else σ

/-- `Close` (lines 331-345): already closed is a no-op; otherwise the state
becomes closed and, after the lock is released, the snapshotted `onClose`
hooks run in order.  The returned event list records the transition followed by
the hook invocations. -/
def close (σ : MTR) : MTR × List Event :=
  if σ.state = .stateClosed then (σ, [])
  else
    ({ σ with state := .stateClosed },
      .stateChange .stateClosed :: σ.onClose.map .hookCall)

/-- `TryClose` (lines 312-329): true if already closed; false (no state change)
if some slot is a dummy with an upgraded delegate; else perform `Close` and
return true. -/
def tryClose (σ : MTR) : Bool × MTR × List Event :=
  if σ.state = .stateClosed then (true, σ, [])
  else if σ.receivers.any fun s => s.inner.isUpgradedDummy then (false, σ, [])
  else
    let p := close σ
    (true, p.1, p.2)

/-- `AddOnClose` (lines 427-435): append the hook. -/
def addOnClose (σ : MTR) (f : Nat) : MTR :=
  { σ with onClose := σ.onClose ++ [f] }

/-- Errors surfaced by `AddSubscriber`. -/
inductive SubErr where
  | notOpen
  | noReceiver
deriving DecidableEq

/-- The upstream-codec set built by `AddSubscriber` (lines 455-467): potential
codecs plus each slot's codec whose mime (case-sensitive `==` here, unlike the
scans elsewhere) is not already present. -/
def upstreamCodecs (potential : List Codec) (rs : List Slot) : List Codec :=
  rs.foldl
    (fun acc s =>
      if acc.any fun pc => s.inner.codecOf.mimeType == pc.mimeType then acc
      else acc ++ [s.inner.codecOf])
    potential

/-- `AddSubscriber` (lines 438-486) up to the hand-off to the external
subscriptions collaborator: the error checks and the upstream-codec snapshot
that goes into the `WrappedReceiver`.  The function reads the state and never
mutates it. -/
def addSubscriber (σ : MTR) : Except SubErr (List Codec) :=
  if σ.state ≠ .stateOpen then .error .notOpen
  else if σ.receivers.isEmpty then .error .noReceiver
  else .ok (upstreamCodecs σ.potentialCodecs σ.receivers)

/-- Inner loop of `SetLayerSsrc` (lines 552-564): find the first layer with the
given quality; if its ssrc is already non-zero leave it alone, else store the
new ssrc. -/
def setSsrcIfUnset : List VideoLayer → Nat → Nat → List VideoLayer
  | [], _, _ => []
  | l :: ls, q, s =>
    if l.quality == q then
      if l.ssrc != 0 then l :: ls else { l with ssrc := s } :: ls
    else l :: setSsrcIfUnset ls q s

/-- Codec loop of `SetLayerSsrc` (lines 546-572): only the first codec whose
mime matches case-insensitively is patched. -/
def patchFirstCodec : List CodecInfo → String → Nat → Nat → List CodecInfo
  | [], _, _, _ => []
  | c :: cs, mime, q, s =>
    if eqFold c.mimeType mime then
      { c with layers := setSsrcIfUnset c.layers q s } :: cs
    else c :: patchFirstCodec cs mime q s

/-- `SetLayerSsrc` (lines 537-576) acting on `TrackInfo`.  The spatial layer
and quality are derived from `rid` by `buffer.RidToSpatialLayer` /
`buffer.SpatialLayerToVideoQuality`, which live outside this repository; the
function takes the resulting `quality` directly.  When the matched codec is at
index 0 the top-level layers mirror its layers. -/
def setLayerSsrc (ti : TrackInfo) (mime : String) (quality ssrc : Nat) :
    TrackInfo :=
  let codecs := patchFirstCodec ti.codecs mime quality ssrc
  let layers :=
    match ti.codecs, codecs with
    | c :: _, c' :: _ => if eqFold c.mimeType mime then c'.layers else ti.layers
    | _, _ => ti.layers
  { ti with codecs := codecs, layers := layers }

/-- Layer patch shared by `UpdateTrackInfo` (lines 609-618) and
`UpdateVideoLayers` (lines 648-655): keep the first matching origin layer's
ssrc when it is non-zero. -/
def patchLayer (origins : List VideoLayer) (l : VideoLayer) : VideoLayer :=
  match origins.find? (fun ol => ol.quality == l.quality) with
  | some ol => if ol.ssrc != 0 then { l with ssrc := ol.ssrc } else l
  | none => l

/-- Codec patch of `UpdateTrackInfo` (lines 599-621): keep the first
mime-matching origin codec's mid when non-empty and patch each layer's ssrc. -/
def patchCodec (origins : List CodecInfo) (ci : CodecInfo) : CodecInfo :=
  match origins.find? (fun oc => eqFold ci.mimeType oc.mimeType) with
  | some oc =>
    { ci with
      mid := if oc.mid ≠ "" then oc.mid else ci.mid,
      layers := ci.layers.map (patchLayer oc.layers) }
  | none => ci

/-- `UpdateTrackInfo` (lines 593-638) acting on `TrackInfo`: the incoming info
replaces the stored one after patching mids and ssrcs from the original, and
the top-level layers mirror the primary (index 0) codec's layers. -/
def updateTrackInfo (ti new : TrackInfo) : TrackInfo :=
  let codecs := new.codecs.map (patchCodec ti.codecs)
  let layers :=
    match codecs with
    | c :: _ => c.layers
    | [] => new.layers
  { new with codecs := codecs, layers := layers }

/-- `UpdateVideoLayers` (lines 640-667) acting on `TrackInfo`: every codec's
layer list is rebuilt from the supplied layers, keeping already-set non-zero
ssrcs per quality; the top-level layers mirror the primary codec's layers. -/
def updateVideoLayers (ti : TrackInfo) (ls : List VideoLayer) : TrackInfo :=
  let codecs :=
    ti.codecs.map fun ci => { ci with layers := ls.map (patchLayer ci.layers) }
  let layers :=
    match codecs with
    | c :: _ => c.layers
    | [] => ti.layers
  { ti with codecs := codecs, layers := layers }

/-- The ssrc stored for a `(mime, quality)` pair: first codec matching the mime
case-insensitively, first layer with that quality. -/
def getSsrc (ti : TrackInfo) (mime : String) (q : Nat) : Option Nat :=
  match ti.codecs.find? (fun ci => eqFold ci.mimeType mime) with
  | none => none
  | some ci =>
    match ci.layers.find? (fun l => l.quality == q) with
    | none => none
    | some l => some l.ssrc

/-! ### Quality selection (`GetQualityForDimension`)

`requestedSize = uint32(float32(requestedSize) * layerSelectionTolerance)` is
32-bit floating point: the untyped constant `0.9` becomes the `float32`
`15099494 / 2^24`, the multiplication rounds to nearest-even at 24 significand
bits, and the conversion to `uint32` truncates toward zero.  `rne24` is
round-to-nearest-even of a non-negative integer significand at 24 bits. -/

/-- Halvings of `n` until zero, with explicit fuel (structural recursion so
that the kernel can evaluate it). -/
def blgo : Nat → Nat → Nat
  | 0, _ => 0
  | fuel + 1, n => if n = 0 then 0 else blgo fuel (n / 2) + 1

/-- Number of binary digits of `n` (0 for 0); exact for every `n < 2^128`,
far beyond the 56-bit products arising from `uint32` inputs. -/
def bitlen (n : Nat) : Nat :=
  blgo 128 n

/-- Round a natural number to 24 significant bits, ties to even. -/
def rne24 (p : Nat) : Nat :=
  let b := bitlen p
  if b ≤ 24 then p
  else
    let s := b - 24
    let q := p / 2 ^ s
    let r := p % 2 ^ s
    let half := 2 ^ (s - 1)
    let m := if half < r || (r == half && q % 2 == 1) then q + 1 else q
    m * 2 ^ s

/-- `uint32(float32(r) * 0.9)`: convert `r` to `float32` (RNE), multiply by the
`float32` nearest to 0.9 (`15099494/2^24`), round the product to `float32`
(RNE), truncate toward zero.  Exact for every `uint32` input (no overflow,
no subnormals). -/
def f32target (r : Nat) : Nat :=
  rne24 (rne24 r * 15099494) / 2 ^ 24

/-- The selection loop of `GetQualityForDimension` (lines 744-751): `quality`
is set to the running index; break at the last index, or early when the size
reaches the target and differs from the next size.  An empty list leaves the
initial `HIGH`. -/
def qualityScan : Nat → List Nat → Nat → Nat
  | _, [], _ => 2
  | i, [_], _ => i
  | i, s :: s' :: rest, t =>
    if t ≤ s && s != s' then i else qualityScan (i + 1) (s' :: rest) t

/-- `GetQualityForDimension` (lines 707-754), returning the `VideoQuality`
ordinal. -/
def getQualityForDimension (ti : TrackInfo) (width height : Nat) : Nat :=
  if ti.type = TrackType.audio then 2
  else if ti.height = 0 then 2
  else
    let origSize := if ti.width < ti.height then ti.width else ti.height
    let requested₀ := if ti.width < ti.height then width else height
    let providedSizes := ti.layers.map (·.height)
    let layerSizes :=
      if providedSizes.isEmpty then [180, 360, origSize]
      else List.insertionSort (· ≤ ·) providedSizes
    let requested₁ := if providedSizes.isEmpty then requested₀ else height
    qualityScan 0 layerSizes (f32target requested₁)

/-- The quality-selection function exactly as claim C1 words it (this follows
the spec's words, for comparison with `getQualityForDimension`): the requested
size comes from the width whenever the track is portrait, the default layer
sizes end with the original *height*, and the target is the exact product
`requested × 0.9` (`s ≥ 0.9·r ↔ 10·s ≥ 9·r`). -/
def claimQuality (ti : TrackInfo) (width height : Nat) : Nat :=
  if ti.type = TrackType.audio then 2
  else if ti.height = 0 then 2
  else
    let requested := if ti.width < ti.height then width else height
    let layerSizes :=
      if ti.layers.isEmpty then [180, 360, ti.height]
      else List.insertionSort (· ≤ ·) (ti.layers.map (·.height))
    claimScan 0 layerSizes requested
where
  /-- The claim's scan: break at the last index or when
  `size ≥ 0.9 × requested` and the size differs from the next one. -/
  claimScan : Nat → List Nat → Nat → Nat
    | _, [], _ => 2
    | i, [_], _ => i
    | i, s :: s' :: rest, r =>
      if 9 * r ≤ 10 * s && s != s' then i else claimScan (i + 1) (s' :: rest) r

/-- Declarative form of the selection loop: the break index is the first `i`
with `sizes[i] ≥ target` and `sizes[i] ≠ sizes[i+1]`, or the last index when no
such `i` exists. -/
def breakIdx (sizes : List Nat) (t : Nat) : Nat :=
  match (sizes.zip sizes.tail).findIdx? (fun p => t ≤ p.1 && p.1 != p.2) with
  | some i => i
  | none => sizes.length - 1

/-- `GetQualityForDimension` as amended claim C1 describes it: same axis and
default-size rules as the code, float32 target, and the result is the ordinal
of the break index. -/
def amendedQuality (ti : TrackInfo) (width height : Nat) : Nat :=
  if ti.type = TrackType.audio then 2
  else if ti.height = 0 then 2
  else
    let origSize := if ti.width < ti.height then ti.width else ti.height
    let requested₀ := if ti.width < ti.height then width else height
    let providedSizes := ti.layers.map (·.height)
    let layerSizes :=
      if providedSizes.isEmpty then [180, 360, origSize]
      else List.insertionSort (· ≤ ·) providedSizes
    let requested₁ := if providedSizes.isEmpty then requested₀ else height
    breakIdx layerSizes (f32target requested₁)

/-! ### Call sequences -/

/-- Operations quantified over by claim C2. -/
inductive Op2 where
  | setup (r : Receiver) (priority : Int) (mid : String)
  | setPotential (codecs : List Codec) (headers : List String)

/-- State effect of a C2 operation. -/
def applyOp2 (σ : MTR) : Op2 → MTR
  | .setup r p m => (setupReceiver σ r p m).1
  | .setPotential cs hs => setPotentialCodecs σ cs hs

/-- Run a sequence of C2 operations. -/
def execFrom (σ : MTR) (ops : List Op2) : MTR :=
  ops.foldl applyOp2 σ

/-- A freshly created receiver: empty slot list, open, no hooks. -/
def init2 : MTR :=
  ⟨[], ⟨.video, 0, 0, false, "", "", [], []⟩, [], .stateOpen, false, [], 0⟩

/-- Run a sequence of C2 operations from the initial state. -/
def exec2 (ops : List Op2) : MTR :=
  execFrom init2 ops

/-- A `SetupReceiver` call is collision-free when no existing slot with a
matching mime already holds a real (non-dummy) receiver; such a call would
silently append a duplicate slot (design note, spec §9). -/
def safeStep (σ : MTR) : Op2 → Bool
  | .setup r _ _ =>
    !(σ.receivers.any fun s =>
      eqFold (slotMime s) r.codec.mimeType && !s.inner.isDummy)
  | .setPotential _ _ => true

/-- Every call of the sequence is collision-free in the state it runs in. -/
def safeTrace (σ : MTR) : List Op2 → Bool
  | [] => true
  | op :: ops => safeStep σ op && safeTrace (applyOp2 σ op) ops

/-- Operations quantified over by claim C8. -/
inductive Op8 where
  | opSetClosing
  | opClose
  | opTryClose

/-- State effect of a C8 operation. -/
def step8 (σ : MTR) : Op8 → MTR
  | .opSetClosing => setClosing σ
  | .opClose => (close σ).1
  | .opTryClose => (tryClose σ).2.1

/-- The sequence of states the object passes through while running the
operations (including the initial state). -/
def trace8 : MTR → List Op8 → List MTRState
  | σ, [] => [σ.state]
  | σ, op :: ops => σ.state :: trace8 (step8 σ op) ops

/-- Collapse adjacent duplicates: the sequence of *distinct* states passed
through. -/
def collapse : List MTRState → List MTRState
  | [] => []
  | [a] => [a]
  | a :: b :: t => if a = b then collapse (b :: t) else a :: collapse (b :: t)

/-! ### Concrete fixtures used by counterexamples and witnesses -/

/-- A VP8 receiver. -/
def vp8r : Receiver := ⟨⟨"video/VP8"⟩⟩

/-- An H264 receiver. -/
def h264r : Receiver := ⟨⟨"video/H264"⟩⟩

/-- An AV1 receiver. -/
def av1r : Receiver := ⟨⟨"video/AV1"⟩⟩

/-- Landscape 1280x720 track with explicit layers 180/360/720 (spec §8,
scenario 4). -/
def tiW : TrackInfo :=
  ⟨.video, 1280, 720, false, "", "",
    [⟨0, 320, 180, 0⟩, ⟨1, 640, 360, 0⟩, ⟨2, 1280, 720, 0⟩], []⟩

/-- Portrait 360x720 track without explicit layers. -/
def tiA : TrackInfo := ⟨.video, 360, 720, false, "", "", [], []⟩

/-- Portrait track with four explicit layers. -/
def tiB : TrackInfo :=
  ⟨.video, 300, 400, false, "", "",
    [⟨0, 0, 100, 0⟩, ⟨1, 0, 200, 0⟩, ⟨2, 0, 300, 0⟩, ⟨3, 0, 400, 0⟩], []⟩

/-- Portrait 360x640 track with explicit layers 180/360/640. -/
def tiC : TrackInfo :=
  ⟨.video, 360, 640, false, "", "",
    [⟨0, 0, 180, 0⟩, ⟨1, 0, 360, 0⟩, ⟨2, 0, 640, 0⟩], []⟩

/-- Landscape track whose layer heights straddle the float32 target of the
requested height 2^24 + 1. -/
def tiE : TrackInfo :=
  ⟨.video, 700, 600, false, "", "",
    [⟨0, 0, 15099494, 0⟩, ⟨1, 0, 99999999, 0⟩], []⟩

/-- A receiver in the closing state. -/
def σClosing : MTR := { init2 with state := .stateClosing }

/-- A receiver in the closed state. -/
def σClosed : MTR := { init2 with state := .stateClosed }

/-- An open receiver holding one dummy slot whose delegate has been upgraded. -/
def σDummyUp : MTR :=
  ⟨[⟨0, .dummy ⟨"video/VP8"⟩ [] (some vp8r), 0⟩],
    ⟨.video, 0, 0, false, "", "", [], []⟩, [], .stateOpen, false, [], 1⟩

/-- An open receiver with two registered close hooks. -/
def σHooks : MTR := { init2 with onClose := [10, 20] }

/-- An open receiver holding one not-yet-upgraded dummy slot for VP8 (stored
with a differently-cased mime). -/
def σDum6 : MTR :=
  ⟨[⟨0, .dummy ⟨"video/vp8"⟩ [] none, 0⟩],
    ⟨.video, 0, 0, false, "", "", [], []⟩, [], .stateOpen, false, [], 1⟩

/-- Three real slots for the `ClearReceiver` witness. -/
def rs10 : List Slot :=
  [⟨0, .real vp8r, 0⟩, ⟨1, .real h264r, 1⟩, ⟨2, .real av1r, 2⟩]

/-- Track info with one codec whose HIGH layer already carries ssrc 7. -/
def ti3 : TrackInfo :=
  ⟨.video, 640, 360, false, "video/VP8", "", [],
    [⟨"video/VP8", "0", "", [⟨2, 640, 360, 7⟩]⟩]⟩

/-- Incoming track info targeting the same codec and layer with a different
ssrc. -/
def new3 : TrackInfo :=
  ⟨.video, 640, 360, false, "video/VP8", "", [],
    [⟨"video/vp8", "1", "", [⟨2, 640, 360, 5⟩]⟩]⟩

/-- Incoming video layers targeting the HIGH quality with ssrc 0. -/
def ls3 : List VideoLayer := [⟨2, 1280, 720, 0⟩]

/-- Two `SetupReceiver` calls with the same mime: the second appends a
duplicate slot. -/
def dupOps : List Op2 := [.setup vp8r 0 "", .setup vp8r 1 ""]

/-- Seed two potential codecs, then upgrade VP8. -/
def ops2w : List Op2 :=
  [.setPotential [⟨"video/VP8"⟩, ⟨"video/H264"⟩] [], .setup vp8r 0 "0"]

/-- One further upgrade call, for the persistence part of C2. -/
def op2w : Op2 := .setup h264r 1 "1"

/-- The H264 dummy slot produced by `ops2w`. -/
def s2w : Slot := ⟨1, .dummy ⟨"video/H264"⟩ [] none, 1⟩

/-- Close via `SetClosing` then `TryClose`. -/
def ops8w : List Op8 := [.opSetClosing, .opTryClose]

/-! ## Theorems -/

/-- C9: `SetupReceiver` called while the state is not Open returns without any
effect — slot list, `TrackInfo` and state unchanged — and without invoking the
`onSetupReceiver` hook, and it signals no error (the return type has no error
component). -/
theorem c9_setup_noop_not_open (σ : MTR) (r : Receiver) (p : Int) (mid : String)
    (h : σ.state ≠ .stateOpen) :
    setupReceiver σ r p mid = (σ, none) := by
  simp [setupReceiver, h]

/-- Witness for C9 at a closing receiver. -/
theorem c9_witness :
    σClosing.state ≠ MTRState.stateOpen ∧
    setupReceiver σClosing vp8r 0 "0" = (σClosing, none) :=
  ⟨by decide, c9_setup_noop_not_open σClosing vp8r 0 "0" (by decide)⟩

/-- C5: `AddSubscriber` fails with `NotOpen` whenever the state is not Open,
and with `NoReceiver` whenever the state is Open and the slot list is empty;
in both cases no subscribed track is produced (the result is an error) and,
the function being a pure read, the receiver state is unchanged. -/
theorem c5_add_subscriber_errors (σ : MTR) :
    (σ.state ≠ .stateOpen → addSubscriber σ = .error .notOpen) ∧
    (σ.state = .stateOpen → σ.receivers = [] →
      addSubscriber σ = .error .noReceiver) := by
  constructor
  · intro h
    simp [addSubscriber, h]
  · intro h hr
    simp [addSubscriber, h, hr]

/-- Witness for C5: the empty open receiver and a closing receiver. -/
theorem c5_witness :
    (init2.state = MTRState.stateOpen ∧ init2.receivers = [] ∧
      addSubscriber init2 = .error .noReceiver) ∧
    (σClosing.state ≠ MTRState.stateOpen ∧
      addSubscriber σClosing = .error .notOpen) :=
  ⟨⟨rfl, rfl, (c5_add_subscriber_errors init2).2 rfl rfl⟩,
    ⟨by decide, (c5_add_subscriber_errors σClosing).1 (by decide)⟩⟩

/-- C7: `Close` is idempotent — the first call on a non-closed receiver moves
the state to Closed and invokes every registered hook exactly once, in the
order `AddOnClose` added them (which appends), and only after the state change
(the emitted event list puts the transition first); a second call is a no-op
that emits nothing. -/
theorem c7_close_idempotent (σ : MTR) (f : Nat) (h : σ.state ≠ .stateClosed) :
    (close σ).1.state = .stateClosed ∧
    (close σ).2 = Event.stateChange .stateClosed :: σ.onClose.map Event.hookCall ∧
    close (close σ).1 = ((close σ).1, []) ∧
    (addOnClose σ f).onClose = σ.onClose ++ [f] := by
  refine ⟨?_, ?_, ?_, rfl⟩ <;> simp [close, addOnClose, h]

/-- Witness for C7 at a receiver with two hooks. -/
theorem c7_witness :
    σHooks.state ≠ MTRState.stateClosed ∧
    ((close σHooks).1.state = .stateClosed ∧
      (close σHooks).2 =
        Event.stateChange .stateClosed :: σHooks.onClose.map Event.hookCall ∧
      close (close σHooks).1 = ((close σHooks).1, []) ∧
      (addOnClose σHooks 30).onClose = σHooks.onClose ++ [30]) :=
  ⟨by decide, c7_close_idempotent σHooks 30 (by decide)⟩

/-- C4: `TryClose` returns true when already Closed; returns false with the
state unchanged when some slot's inner receiver is a dummy whose delegate has
been upgraded; otherwise performs `Close` and returns true, after which the
state is Closed. -/
theorem c4_try_close (σ : MTR) :
    (σ.state = .stateClosed → tryClose σ = (true, σ, [])) ∧
    (σ.state ≠ .stateClosed →
      (σ.receivers.any fun s => s.inner.isUpgradedDummy) = true →
      tryClose σ = (false, σ, [])) ∧
    (σ.state ≠ .stateClosed →
      (σ.receivers.any fun s => s.inner.isUpgradedDummy) = false →
      tryClose σ = (true, (close σ).1, (close σ).2) ∧
        (tryClose σ).2.1.state = .stateClosed) := by
  refine ⟨fun h => by simp [tryClose, h],
    fun h h2 => by simp [tryClose, h, h2],
    fun h h2 => ⟨by simp [tryClose, h, h2], by simp [tryClose, close, h, h2]⟩⟩

/-- Witness for C4: refusal on an upgraded dummy, and the trivial return on a
closed receiver. -/
theorem c4_witness :
    (σDummyUp.state ≠ MTRState.stateClosed ∧
      (σDummyUp.receivers.any fun s => s.inner.isUpgradedDummy) = true ∧
      tryClose σDummyUp = (false, σDummyUp, [])) ∧
    (σClosed.state = MTRState.stateClosed ∧ tryClose σClosed = (true, σClosed, [])) :=
  ⟨⟨by decide, by decide, (c4_try_close σDummyUp).2.1 (by decide) (by decide)⟩,
    ⟨by decide, (c4_try_close σClosed).1 (by decide)⟩⟩

/-- Swapping the last element into position `i` and truncating permutes the
list with the `i`-th element erased. -/
theorem swapRemove_perm (l : List α) (i : Nat) (hi : i < l.length) (d : α) :
    ((l.set i (l.getLastD d)).dropLast).Perm (l.eraseIdx i) := by
  have hne : l ≠ [] := by
    intro h
    subst h
    simp at hi
  obtain ⟨a, ha⟩ := Option.isSome_iff_exists.1 (List.getLast?_isSome.2 hne)
  obtain ⟨ys, rfl⟩ := List.getLast?_eq_some_iff.1 ha
  have hlast : (ys ++ [a]).getLastD d = a := by
    simp [List.getLastD_eq_getLast?, List.getLast?_concat]
  rw [hlast]
  rcases Nat.lt_or_ge i ys.length with h | h
  · rw [List.set_append_left _ _ h, List.dropLast_concat,
      List.eraseIdx_append_of_lt_length h,
      List.set_eq_take_cons_drop _ h, List.eraseIdx_eq_take_drop_succ,
      List.append_assoc]
    exact List.Perm.append_left _ ((List.perm_append_singleton _ _).symm)
  · have hiy : i = ys.length := by
      have := List.length_append ys [a] ▸ hi
      simp at this
      omega
    subst hiy
    rw [List.set_append_right _ _ h, List.eraseIdx_append_of_length_le h]
    simp

/-- C10: `ClearReceiver` removes at most one slot — the first whose mime
matches case-insensitively; when no slot matches the list is unchanged, and
when the first match is at index `i` the result is a permutation of the list
with index `i` erased (every other slot remains a member; only the order may
change, because the last slot is swapped into the removed position). -/
theorem c10_clear_receiver (rs : List Slot) (mime : String) (wbr : Bool) :
    (rs.findIdx? (fun s => eqFold (slotMime s) mime) = none →
      clearList rs mime wbr = rs) ∧
    (∀ i, rs.findIdx? (fun s => eqFold (slotMime s) mime) = some i →
      (clearList rs mime wbr).Perm (rs.eraseIdx i)) := by
  constructor
  · intro h
    simp [clearList, h]
  · intro i h
    obtain ⟨hi, -, -⟩ := List.findIdx?_eq_some_iff_getElem.1 h
    simp only [clearList, h]
    exact swapRemove_perm rs i hi defaultSlot

/-- Witness for C10 on three concrete slots: a matching mime removes exactly
the first match; an unknown mime leaves the list unchanged. -/
theorem c10_witness :
    (rs10.findIdx? (fun s => eqFold (slotMime s) "video/vp8") = some 0 ∧
      (clearList rs10 "video/vp8" false).Perm (rs10.eraseIdx 0)) ∧
    (rs10.findIdx? (fun s => eqFold (slotMime s) "audio/opus") = none ∧
      clearList rs10 "audio/opus" false = rs10) :=
  ⟨⟨by decide, (c10_clear_receiver rs10 "video/vp8" false).2 0 (by decide)⟩,
    ⟨by decide, (c10_clear_receiver rs10 "audio/opus" false).1 (by decide)⟩⟩

/-- Setting an index to its own value is the identity. -/
theorem set_self_eq : ∀ (l : List α) (i : Nat) (h : i < l.length),
    l.set i (l.get ⟨i, h⟩) = l
  | _ :: _, 0, _ => rfl
  | a :: t, i + 1, h => by
    simpa using set_self_eq t i (by simpa using h)

/-- The upgrade scan finds the first slot that matches the receiver's mime and
holds a dummy, and upgrades exactly that slot in place. -/
theorem upgradeFirst_spec (r : Receiver) :
    ∀ rs : List Slot,
      (∃ s ∈ rs, (eqFold (slotMime s) r.codec.mimeType && s.inner.isDummy) = true) →
      ∃ i, ∃ hi : i < rs.length,
        (eqFold (slotMime rs[i]) r.codec.mimeType && rs[i].inner.isDummy) = true ∧
        upgradeFirst r rs =
          (true, rs.set i { rs[i] with inner := rs[i].inner.upgrade r })
  | [] => by
    rintro ⟨s, hs, -⟩
    simp at hs
  | s :: rest => by
    intro hex
    by_cases hc : (eqFold (slotMime s) r.codec.mimeType && s.inner.isDummy) = true
    · exact ⟨0, by simp, by simpa using hc, by simp [upgradeFirst, hc]⟩
    · have hex' : ∃ x ∈ rest,
          (eqFold (slotMime x) r.codec.mimeType && x.inner.isDummy) = true := by
        obtain ⟨x, hx, hpx⟩ := hex
        rcases List.mem_cons.1 hx with rfl | hx'
        · exact absurd hpx hc
        · exact ⟨x, hx', hpx⟩
      obtain ⟨i, hi, hP, hup⟩ := upgradeFirst_spec r rest hex'
      refine ⟨i + 1, by simpa using Nat.succ_lt_succ hi, by simpa using hP, ?_⟩
      simp [upgradeFirst, hc, hup]

/-- Sortedness only depends on the priorities. -/
theorem sorted_of_map_priority_eq : ∀ {l₁ l₂ : List Slot},
    l₁.map (·.priority) = l₂.map (·.priority) →
    List.Sorted slotLE l₁ → List.Sorted slotLE l₂
  | [], [], _, _ => List.sorted_nil
  | [], _ :: _, h, _ => by simp at h
  | _ :: _, [], h, _ => by simp at h
  | a :: t₁, b :: t₂, h, hs => by
    simp only [List.map_cons, List.cons.injEq] at h
    obtain ⟨hab, ht⟩ := h
    rw [List.sorted_cons] at hs ⊢
    refine ⟨?_, sorted_of_map_priority_eq ht hs.2⟩
    intro x hx
    have hxp : x.priority ∈ t₁.map (·.priority) := by
      rw [ht]
      exact List.mem_map_of_mem _ hx
    obtain ⟨y, hy, hyp⟩ := List.mem_map.1 hxp
    have hay := hs.1 y hy
    show b.priority ≤ x.priority
    rw [← hab, ← hyp]
    exact hay

/-- C6: when `SetupReceiver` finds a slot with a case-insensitively matching
mime whose inner receiver is a dummy, the dummy is upgraded in place: the
resulting slot list is the old list with only that slot's inner receiver
replaced by the upgraded dummy — slot identity (`sid`), priority, and the list
ordering are preserved and no slot is appended. -/
theorem c6_setup_upgrades_in_place (σ : MTR) (r : Receiver) (p : Int)
    (mid : String) (hopen : σ.state = .stateOpen)
    (hsort : List.Sorted slotLE σ.receivers)
    (hex : ∃ s ∈ σ.receivers,
      (eqFold (slotMime s) r.codec.mimeType && s.inner.isDummy) = true) :
    ∃ i, ∃ hi : i < σ.receivers.length,
      (eqFold (slotMime σ.receivers[i]) r.codec.mimeType &&
        σ.receivers[i].inner.isDummy) = true ∧
      (setupReceiver σ r p mid).1.receivers =
        σ.receivers.set i
          { σ.receivers[i] with inner := σ.receivers[i].inner.upgrade r } := by
  obtain ⟨i, hi, hP, hup⟩ := upgradeFirst_spec r σ.receivers hex
  refine ⟨i, hi, hP, ?_⟩
  have hmap : (σ.receivers.set i
      { σ.receivers[i] with inner := σ.receivers[i].inner.upgrade r }).map
        (·.priority) = σ.receivers.map (·.priority) := by
    rw [List.map_set]
    have : ({ σ.receivers[i] with
        inner := σ.receivers[i].inner.upgrade r } : Slot).priority =
        (σ.receivers.map (·.priority)).get ⟨i, by simpa using hi⟩ := by
      simp
    rw [this, set_self_eq]
  have hsorted' := sorted_of_map_priority_eq hmap.symm hsort
  simp [setupReceiver, hopen, hup, hsorted'.insertionSort_eq]

/-- Witness for C6: an open receiver with a lower-cased VP8 dummy slot,
upgraded by an upper-cased VP8 receiver. -/
theorem c6_witness :
    σDum6.state = MTRState.stateOpen ∧
    List.Sorted slotLE σDum6.receivers ∧
    (∃ s ∈ σDum6.receivers,
      (eqFold (slotMime s) vp8r.codec.mimeType && s.inner.isDummy) = true) ∧
    ∃ i, ∃ hi : i < σDum6.receivers.length,
      (eqFold (slotMime σDum6.receivers[i]) vp8r.codec.mimeType &&
        σDum6.receivers[i].inner.isDummy) = true ∧
      (setupReceiver σDum6 vp8r 0 "0").1.receivers =
        σDum6.receivers.set i
          { σDum6.receivers[i] with
            inner := σDum6.receivers[i].inner.upgrade vp8r } := by
  have hs : List.Sorted slotLE σDum6.receivers := List.sorted_singleton _
  have hx : ∃ s ∈ σDum6.receivers,
      (eqFold (slotMime s) vp8r.codec.mimeType && s.inner.isDummy) = true := by
    decide
  exact ⟨rfl, hs, hx, c6_setup_upgrades_in_place σDum6 vp8r 0 "0" rfl hs hx⟩

/-- `breakIdx` on a singleton is the last index, 0. -/
theorem breakIdx_single (s t : Nat) : breakIdx [s] t = 0 := by
  simp [breakIdx]

/-- Recursive characterisation of `breakIdx`. -/
theorem breakIdx_cons₂ (s s' : Nat) (rest : List Nat) (t : Nat) :
    breakIdx (s :: s' :: rest) t =
      if (t ≤ s && s != s') = true then 0 else breakIdx (s' :: rest) t + 1 := by
  by_cases hc : (t ≤ s && s != s') = true
  · simp [breakIdx, List.findIdx?_cons, hc]
  · simp only [breakIdx, List.tail_cons, List.zip_cons_cons, List.findIdx?_cons,
      hc, if_neg, Bool.false_eq_true, not_false_iff]
    cases hE : List.findIdx? (fun p => t ≤ p.1 && p.1 != p.2)
        ((s' :: rest).zip rest) with
    | none => simp [hE]
    | some j => simp [hE]

/-- The selection loop computes the break index, shifted by the running
index. -/
theorem qualityScan_eq_breakIdx (t : Nat) :
    ∀ sizes : List Nat, sizes ≠ [] → ∀ i,
      qualityScan i sizes t = i + breakIdx sizes t
  | [], h, _ => absurd rfl h
  | [s], _, i => by simp [qualityScan, breakIdx_single]
  | s :: s' :: rest, _, i => by
    rw [qualityScan, breakIdx_cons₂]
    by_cases hc : (t ≤ s && s != s') = true
    · simp [hc]
    · simp only [hc, if_neg, Bool.false_eq_true, not_false_iff]
      rw [qualityScan_eq_breakIdx t (s' :: rest) (by simp) (i + 1)]
      omega

/-- The selection loop never exceeds the last index. -/
theorem qualityScan_le (t : Nat) :
    ∀ sizes : List Nat, sizes ≠ [] → ∀ i,
      qualityScan i sizes t ≤ i + (sizes.length - 1)
  | [], h, _ => absurd rfl h
  | [s], _, i => by simp [qualityScan]
  | s :: s' :: rest, _, i => by
    rw [qualityScan]
    by_cases hc : (t ≤ s && s != s') = true
    · simp [hc]
    · simp only [hc, if_neg, Bool.false_eq_true, not_false_iff]
      have := qualityScan_le t (s' :: rest) (by simp) (i + 1)
      simp only [List.length_cons] at this ⊢
      omega

/-- C1 (amended): `GetQualityForDimension` behaves as the amended claim
describes — audio and zero-height tracks yield HIGH; otherwise the requested
size comes from the width only for portrait tracks *without* explicit layers
(with explicit layers the height is always used); the default layer sizes are
`[180, 360, s]` where `s` is the original size along the chosen axis (the
width for portrait tracks); the target is the float32 product
`uint32(float32(requested) * 0.9)`; the result is the ordinal of the first
index that is last or satisfies `sizes[i] ≥ target ∧ sizes[i] ≠ sizes[i+1]`;
and it lies in {LOW, MEDIUM, HIGH} whenever there are at most three layers. -/
theorem c1_quality_amended (ti : TrackInfo) (w h : Nat) :
    getQualityForDimension ti w h = amendedQuality ti w h ∧
    (ti.layers.length ≤ 3 → getQualityForDimension ti w h ≤ 2) := by
  by_cases h1 : ti.type = TrackType.audio
  · constructor
    · simp [getQualityForDimension, amendedQuality, h1]
    · intro _
      simp [getQualityForDimension, h1]
  · by_cases h2 : ti.height = 0
    · constructor
      · simp [getQualityForDimension, amendedQuality, h1, h2]
      · intro _
        simp [getQualityForDimension, h1, h2]
    · have key : ∀ (sizes : List Nat) t, sizes ≠ [] →
          qualityScan 0 sizes t = breakIdx sizes t := fun sizes t hne => by
        simpa using qualityScan_eq_breakIdx t sizes hne 0
      have bound : ∀ (sizes : List Nat) t, sizes ≠ [] →
          qualityScan 0 sizes t ≤ sizes.length - 1 := fun sizes t hne => by
        simpa using qualityScan_le t sizes hne 0
      by_cases h3 : (ti.layers.map (·.height)).isEmpty
      · constructor
        · simp only [getQualityForDimension, amendedQuality, h1, h2, h3]
          simp only [if_true, if_neg h1, if_neg h2]
          exact key _ _ (by simp)
        · intro _
          simp only [getQualityForDimension, h1, h2, h3]
          simp only [if_true, if_neg h1, if_neg h2]
          exact le_trans (bound _ _ (by simp)) (by simp)
      · have hlist : ti.layers.map (·.height) ≠ [] := by
          intro hcon
          rw [hcon] at h3
          simp at h3
        have hne : List.insertionSort (· ≤ ·) (ti.layers.map (·.height)) ≠ [] := by
          intro hcon
          have hl := congrArg List.length hcon
          simp only [List.length_insertionSort, List.length_nil] at hl
          exact hlist (List.length_eq_zero.1 hl)
        have h3' : (ti.layers.map (·.height)).isEmpty = false := by
          simpa using h3
        constructor
        · simp only [getQualityForDimension, amendedQuality, h1, h2, h3']
          simp only [Bool.false_eq_true, if_false, if_neg h1, if_neg h2]
          exact key _ _ hne
        · intro hlen
          simp only [getQualityForDimension, h1, h2, h3']
          simp only [Bool.false_eq_true, if_false, if_neg h1, if_neg h2]
          refine le_trans (bound _ _ hne) ?_
          have hl : (List.insertionSort (· ≤ ·)
              (ti.layers.map (·.height))).length = ti.layers.length := by
            simp
          omega

set_option maxRecDepth 16000 in
/-- C1 counterexample: the claim's description diverges from the code.
At `tiA` (portrait, no explicit layers) the code's default sizes end with the
original *width*, not the height, so the duplicate-tier skip fires and the
code returns HIGH where the claim predicts MEDIUM.  At `tiB` (four explicit
layers) the code returns ordinal 3, outside {low, medium, high}.  At `tiC`
(portrait with explicit layers) the code takes the requested size from the
height while the claim takes it from the width.  At `tiE` the float32 target
(15099494) differs from the exact product `0.9 × 16777217` and changes the
selected quality. -/
theorem c1_counterexample :
    (getQualityForDimension tiA 360 720 = 2 ∧ claimQuality tiA 360 720 = 1) ∧
    (getQualityForDimension tiB 9000 10000 = 3 ∧
      ¬ getQualityForDimension tiB 9000 10000 ≤ 2) ∧
    (getQualityForDimension tiC 350 200 = 0 ∧ claimQuality tiC 350 200 = 1) ∧
    (getQualityForDimension tiE 0 16777217 = 0 ∧
      claimQuality tiE 0 16777217 = 1) := by
  decide

/-- Witness for C1 at the spec's own scenario-4 track (three layers). -/
theorem c1_witness :
    getQualityForDimension tiW 640 360 = amendedQuality tiW 640 360 ∧
    tiW.layers.length ≤ 3 ∧ getQualityForDimension tiW 640 360 ≤ 2 :=
  ⟨(c1_quality_amended tiW 640 360).1, by decide,
    (c1_quality_amended tiW 640 360).2 (by decide)⟩

/-- `find?` commutes with a map that preserves the predicate. -/
theorem find?_map_pres {α : Type} (f : α → α) (p : α → Bool)
    (hp : ∀ a, p (f a) = p a) :
    ∀ l : List α, (l.map f).find? p = (l.find? p).map f
  | [] => by simp
  | a :: l => by
    rw [List.map_cons]
    cases h : p a with
    | true =>
      simp only [List.find?, hp, h]
      rfl
    | false =>
      simp only [List.find?, hp, h]
      exact find?_map_pres f p hp l

/-- `find?` only depends on the predicate pointwise. -/
theorem find?_congrP {α : Type} {p q : α → Bool} (hpq : ∀ a, p a = q a) :
    ∀ l : List α, l.find? p = l.find? q
  | [] => rfl
  | a :: l => by
    cases h : p a with
    | true =>
      have h' : q a = true := by rw [← hpq]; exact h
      simp only [List.find?, h, h']
    | false =>
      have h' : q a = false := by rw [← hpq]; exact h
      simp only [List.find?, h, h']
      exact find?_congrP hpq l

/-- `patchLayer` keeps the quality. -/
theorem patchLayer_quality (os : List VideoLayer) (l : VideoLayer) :
    (patchLayer os l).quality = l.quality := by
  rw [patchLayer]
  cases os.find? (fun ol => ol.quality == l.quality) with
  | none => rfl
  | some ol =>
    by_cases h : (ol.ssrc != 0) = true <;> simp [h]

/-- `patchCodec` keeps the mime type. -/
theorem patchCodec_mime (cs : List CodecInfo) (ci : CodecInfo) :
    (patchCodec cs ci).mimeType = ci.mimeType := by
  rw [patchCodec]
  cases cs.find? (fun oc => eqFold ci.mimeType oc.mimeType) <;> rfl

/-- `eqFold` holds exactly when the folded strings agree. -/
theorem eqFold_iff {a b : String} : eqFold a b = true ↔ strFold a = strFold b := by
  simp [eqFold]

/-- Matching one side of an `eqFold` key lets the predicate change sides. -/
theorem eqFold_pred_switch {a m : String} (hk : strFold a = strFold m) :
    ∀ x : String, eqFold a x = eqFold x m := by
  intro x
  by_cases hx : strFold x = strFold m
  · simp [eqFold, hk, hx]
  · have hx' : ¬strFold m = strFold x := fun h => hx h.symm
    simp [eqFold, hk, beq_iff_eq, hx, hx']

/-- `setSsrcIfUnset` never changes the first layer carrying a non-zero ssrc at
the looked-up quality. -/
theorem setSsrcIfUnset_find (q' sv q : Nat) :
    ∀ (ls : List VideoLayer) (l : VideoLayer),
      ls.find? (fun x => x.quality == q) = some l → l.ssrc ≠ 0 →
      (setSsrcIfUnset ls q' sv).find? (fun x => x.quality == q) = some l
  | [], l => by simp
  | x :: ls, l => by
    intro hf hnz
    simp only [setSsrcIfUnset]
    by_cases hq' : (x.quality == q') = true
    · by_cases hs : (x.ssrc != 0) = true
      · rw [if_pos hq', if_pos hs]
        exact hf
      · have hs' : (x.ssrc != 0) = false := by simpa using hs
        cases hq : (x.quality == q) with
        | true =>
          simp only [List.find?, hq] at hf
          obtain rfl : x = l := by injection hf
          have : x.ssrc = 0 := by simpa using hs
          exact absurd this hnz
        | false =>
          simp only [List.find?, hq] at hf
          rw [if_pos hq', if_neg hs]
          simp only [List.find?, hq]
          exact hf
    · have hq'f : (x.quality == q') = false := by simpa using hq'
      rw [if_neg hq']
      cases hq : (x.quality == q) with
      | true =>
        simp only [List.find?, hq] at hf ⊢
        exact hf
      | false =>
        simp only [List.find?, hq] at hf ⊢
        exact setSsrcIfUnset_find q' sv q ls l hf hnz

/-- `patchFirstCodec` never disturbs the codec/layer pair found by `getSsrc`
when that layer's ssrc is already non-zero. -/
theorem patchFirst_find (m' : String) (q' sv : Nat) (mime : String) (q : Nat) :
    ∀ (cs : List CodecInfo) (ci : CodecInfo) (l : VideoLayer),
      cs.find? (fun c => eqFold c.mimeType mime) = some ci →
      ci.layers.find? (fun x => x.quality == q) = some l → l.ssrc ≠ 0 →
      ∃ ci', (patchFirstCodec cs m' q' sv).find?
          (fun c => eqFold c.mimeType mime) = some ci' ∧
        ci'.layers.find? (fun x => x.quality == q) = some l
  | [], ci, l => by simp
  | c :: cs, ci, l => by
    intro hfc hfl hnz
    simp only [patchFirstCodec]
    by_cases hm : eqFold c.mimeType m' = true
    · rw [if_pos hm]
      cases hq : eqFold c.mimeType mime with
      | true =>
        simp only [List.find?, hq] at hfc
        obtain rfl : c = ci := by injection hfc
        refine ⟨{ c with layers := setSsrcIfUnset c.layers q' sv }, ?_, ?_⟩
        · simp only [List.find?, hq]
        · exact setSsrcIfUnset_find q' sv q c.layers l hfl hnz
      | false =>
        simp only [List.find?, hq] at hfc
        refine ⟨ci, ?_, hfl⟩
        simp only [List.find?, hq]
        exact hfc
    · rw [if_neg hm]
      cases hq : eqFold c.mimeType mime with
      | true =>
        simp only [List.find?, hq] at hfc
        obtain rfl : c = ci := by injection hfc
        refine ⟨c, ?_, hfl⟩
        simp only [List.find?, hq]
      | false =>
        simp only [List.find?, hq] at hfc
        obtain ⟨ci', hA, hB⟩ :=
          patchFirst_find m' q' sv mime q cs ci l hfc hfl hnz
        refine ⟨ci', ?_, hB⟩
        simp only [List.find?, hq]
        exact hA

/-- C3: a layer ssrc, once set to a non-zero value, is never changed by a
later `SetLayerSsrc` (with any target), nor by an `UpdateTrackInfo` or
`UpdateVideoLayers` that targets the same `(mime, quality)` pair (carries that
codec and quality). -/
theorem c3_ssrc_first_writer_wins (ti : TrackInfo) (mime : String) (q v : Nat)
    (m' : String) (q' sv : Nat) (new : TrackInfo) (ls : List VideoLayer)
    (h1 : getSsrc ti mime q = some v) (h2 : v ≠ 0) :
    getSsrc (setLayerSsrc ti m' q' sv) mime q = some v ∧
    ((getSsrc new mime q).isSome →
      getSsrc (updateTrackInfo ti new) mime q = some v) ∧
    ((ls.find? (fun l => l.quality == q)).isSome →
      getSsrc (updateVideoLayers ti ls) mime q = some v) := by
  cases hc : ti.codecs.find? (fun ci => eqFold ci.mimeType mime) with
  | none => simp [getSsrc, hc] at h1
  | some oc =>
  cases hl : oc.layers.find? (fun l => l.quality == q) with
  | none => simp [getSsrc, hc, hl] at h1
  | some ol =>
  have hv : ol.ssrc = v := by simpa [getSsrc, hc, hl] using h1
  have hnz : ol.ssrc ≠ 0 := by rw [hv]; exact h2
  refine ⟨?_, ?_, ?_⟩
  · obtain ⟨ci', hA, hB⟩ := patchFirst_find m' q' sv mime q ti.codecs oc ol hc hl hnz
    simp [getSsrc, setLayerSsrc, hA, hB, hv]
  · intro hnew
    cases hnc : new.codecs.find? (fun ci => eqFold ci.mimeType mime) with
    | none => simp [getSsrc, hnc] at hnew
    | some ci₀ =>
    cases hnl : ci₀.layers.find? (fun l => l.quality == q) with
    | none => simp [getSsrc, hnc, hnl] at hnew
    | some l₀ =>
    have hql : l₀.quality = q := by simpa using List.find?_some hnl
    have hnc' := List.find?_some hnc
    have hkey : strFold ci₀.mimeType = strFold mime :=
      eqFold_iff.1 (by simpa using hnc')
    have hmap : ((new.codecs.map (patchCodec ti.codecs)).find?
        (fun ci => eqFold ci.mimeType mime)) =
        (new.codecs.find? (fun ci => eqFold ci.mimeType mime)).map
          (patchCodec ti.codecs) :=
      find?_map_pres (patchCodec ti.codecs)
        (fun ci => eqFold ci.mimeType mime)
        (fun c => by simp only [patchCodec_mime]) new.codecs
    have horigin : ti.codecs.find?
        (fun oc' => eqFold ci₀.mimeType oc'.mimeType) = some oc := by
      rw [find?_congrP (fun x => eqFold_pred_switch hkey x.mimeType) ti.codecs]
      exact hc
    have hpatched : patchCodec ti.codecs ci₀ =
        { ci₀ with
          mid := if oc.mid ≠ "" then oc.mid else ci₀.mid,
          layers := ci₀.layers.map (patchLayer oc.layers) } := by
      rw [patchCodec, horigin]
    have hlfind : (ci₀.layers.map (patchLayer oc.layers)).find?
        (fun l => l.quality == q) = some (patchLayer oc.layers l₀) := by
      rw [find?_map_pres (patchLayer oc.layers) (fun l => l.quality == q)
        (fun l => by simp only [patchLayer_quality]) ci₀.layers, hnl]
      rfl
    have hpl : patchLayer oc.layers l₀ = { l₀ with ssrc := ol.ssrc } := by
      simp only [patchLayer, hql, hl]
      rw [if_pos (by simpa using hnz)]
    simp [getSsrc, updateTrackInfo, hmap, hnc, hpatched, hlfind, hpl, hv]
  · intro hls
    cases hl₀ : ls.find? (fun l => l.quality == q) with
    | none => simp [hl₀] at hls
    | some l₀ =>
    have hql : l₀.quality = q := by simpa using List.find?_some hl₀
    have hmap : ((ti.codecs.map fun ci =>
        { ci with layers := ls.map (patchLayer ci.layers) }).find?
          (fun ci => eqFold ci.mimeType mime)) =
        (ti.codecs.find? (fun ci => eqFold ci.mimeType mime)).map
          (fun ci => { ci with layers := ls.map (patchLayer ci.layers) }) :=
      find?_map_pres (fun ci => { ci with layers := ls.map (patchLayer ci.layers) })
        (fun ci => eqFold ci.mimeType mime) (fun c => rfl) ti.codecs
    have hlfind : (ls.map (patchLayer oc.layers)).find?
        (fun l => l.quality == q) = some (patchLayer oc.layers l₀) := by
      rw [find?_map_pres (patchLayer oc.layers) (fun l => l.quality == q)
        (fun l => by simp only [patchLayer_quality]) ls, hl₀]
      rfl
    have hpl : patchLayer oc.layers l₀ = { l₀ with ssrc := ol.ssrc } := by
      simp only [patchLayer, hql, hl]
      rw [if_pos (by simpa using hnz)]
    simp [getSsrc, updateVideoLayers, hmap, hc, hlfind, hpl, hv]

/-- Witness for C3 on a VP8 codec whose HIGH layer carries ssrc 7. -/
theorem c3_witness :
    getSsrc ti3 "video/VP8" 2 = some 7 ∧ (7 : Nat) ≠ 0 ∧
    (getSsrc new3 "video/VP8" 2).isSome = true ∧
    (ls3.find? (fun l => l.quality == 2)).isSome = true ∧
    (getSsrc (setLayerSsrc ti3 "video/vp8" 2 9) "video/VP8" 2 = some 7 ∧
      getSsrc (updateTrackInfo ti3 new3) "video/VP8" 2 = some 7 ∧
      getSsrc (updateVideoLayers ti3 ls3) "video/VP8" 2 = some 7) := by
  have h := c3_ssrc_first_writer_wins ti3 "video/VP8" 2 7 "video/vp8" 2 9
    new3 ls3 (by decide) (by decide)
  exact ⟨by decide, by decide, by decide, by decide,
    h.1, h.2.1 (by decide), h.2.2 (by decide)⟩

/-- An upgraded matching dummy keeps its folded mime key. -/
theorem slotKey_upgrade {s : Slot} {r : Receiver}
    (hc : (eqFold (slotMime s) r.codec.mimeType && s.inner.isDummy) = true) :
    slotKey { s with inner := s.inner.upgrade r } = slotKey s := by
  have h1 : eqFold (slotMime s) r.codec.mimeType = true :=
    (Bool.and_eq_true _ _ ▸ hc).1
  have h2 : s.inner.isDummy = true := (Bool.and_eq_true _ _ ▸ hc).2
  have hk : strFold (slotMime s) = strFold r.codec.mimeType := eqFold_iff.1 h1
  cases hi : s.inner with
  | real rr =>
    rw [hi] at h2
    simp [Inner.isDummy] at h2
  | dummy c e dl =>
    have hL : slotKey { s with inner := (Inner.dummy c e dl).upgrade r } =
        strFold r.codec.mimeType := rfl
    rw [hL]
    exact hk.symm

/-- The upgrade scan preserves each slot's sid, priority and folded mime. -/
theorem upgradeFirst_maps (r : Receiver) :
    ∀ rs : List Slot,
      ((upgradeFirst r rs).2.map fun s => (s.sid, s.priority, slotKey s)) =
        rs.map fun s => (s.sid, s.priority, slotKey s)
  | [] => rfl
  | s :: rest => by
    simp only [upgradeFirst]
    by_cases hc : (eqFold (slotMime s) r.codec.mimeType && s.inner.isDummy) = true
    · simp only [hc, if_pos, List.map_cons]
      rw [slotKey_upgrade hc]
    · simp only [hc, if_neg, Bool.false_eq_true, not_false_iff, List.map_cons]
      rw [upgradeFirst_maps r rest]

/-- When the scan does not upgrade, the list is unchanged and no slot is a
matching dummy. -/
theorem upgradeFirst_false (r : Receiver) :
    ∀ rs : List Slot, (upgradeFirst r rs).1 = false →
      (upgradeFirst r rs).2 = rs ∧
      ∀ s ∈ rs, (eqFold (slotMime s) r.codec.mimeType && s.inner.isDummy) = false
  | [] => fun _ => ⟨rfl, by simp⟩
  | s :: rest => by
    intro h
    by_cases hc : (eqFold (slotMime s) r.codec.mimeType && s.inner.isDummy) = true
    · rw [upgradeFirst, if_pos hc] at h
      cases h
    · rw [upgradeFirst, if_neg hc] at h ⊢
      simp only at h
      obtain ⟨h1, h2⟩ := upgradeFirst_false r rest h
      refine ⟨by simp [h1], ?_⟩
      intro x hx
      rcases List.mem_cons.1 hx with rfl | hx'
      · simpa using hc
      · exact h2 x hx'

/-- Appending a slot with a fresh key keeps the keys duplicate-free. -/
theorem nodup_concat_key {ks : List (List Char)} {k : List Char}
    (hnd : ks.Nodup) (hfresh : k ∉ ks) : (ks ++ [k]).Nodup := by
  have hperm : (ks ++ [k]).Perm (k :: ks) := List.perm_append_singleton k ks
  exact hperm.nodup_iff.2 (List.nodup_cons.2 ⟨hfresh, hnd⟩)

/-- The seeding loop of `SetPotentialCodecs` preserves key-uniqueness and
membership of existing slots. -/
theorem addPotential_inv (headers hwdd : List String) :
    ∀ (cs : List Codec) (rs : List Slot) (sid i : Nat),
      ((rs.map slotKey).Nodup →
        (((addPotential headers hwdd rs sid i cs).1.map slotKey).Nodup)) ∧
      ∀ s ∈ rs, s ∈ (addPotential headers hwdd rs sid i cs).1
  | [], rs, sid, i => by
    simp [addPotential]
  | c :: cs, rs, sid, i => by
    by_cases hex : (rs.any fun s => eqFold c.mimeType (slotMime s)) = true
    · simp only [addPotential, hex, if_pos]
      exact addPotential_inv headers hwdd cs rs sid (i + 1)
    · simp only [addPotential, hex, if_neg, Bool.false_eq_true, not_false_iff]
      have hall : ∀ s ∈ rs, eqFold c.mimeType (slotMime s) = false := by
        intro s hs
        have := List.any_eq_false.1 (by simpa using hex) s hs
        simpa using this
      set snew : Slot :=
        ⟨sid, .dummy c (if isSvcCodec c.mimeType then headers else hwdd) none,
          (i : Int)⟩ with hsnew
      have ih := addPotential_inv headers hwdd cs (rs ++ [snew]) (sid + 1) (i + 1)
      constructor
      · intro hnd
        refine ih.1 ?_
        rw [List.map_append]
        refine nodup_concat_key hnd ?_
        intro hmem
        obtain ⟨s, hs, hks⟩ := List.mem_map.1 hmem
        have hkey : slotKey snew = strFold c.mimeType := by
          simp [hsnew, slotKey, slotMime, Inner.codecOf]
        have : eqFold c.mimeType (slotMime s) = true := by
          rw [eqFold_iff]
          rw [← hkey, ← hks]
          rfl
        rw [hall s hs] at this
        cases this
      · intro s hs
        exact ih.2 s (List.mem_append_left _ hs)

/-- A single C2 operation leaves the state field unchanged. -/
theorem applyOp2_state (σ : MTR) (op : Op2) : (applyOp2 σ op).state = σ.state := by
  cases op with
  | setup r p m =>
    simp only [applyOp2, setupReceiver]
    by_cases h : σ.state = .stateOpen
    · simp [h]
    · simp [h]
  | setPotential cs hs => rfl

/-- A single C2 operation keeps the slot list sorted. -/
theorem applyOp2_sorted (σ : MTR) (op : Op2)
    (hs : List.Sorted slotLE σ.receivers) :
    List.Sorted slotLE (applyOp2 σ op).receivers := by
  cases op with
  | setup r p m =>
    simp only [applyOp2, setupReceiver]
    by_cases h : σ.state = .stateOpen
    · simp only [h, if_pos]
      exact List.sorted_insertionSort slotLE _
    · simp only [h, if_neg, not_false_iff]
      exact hs
  | setPotential cs hh =>
    exact List.sorted_insertionSort slotLE _

/-- A collision-free C2 operation keeps the folded mimes duplicate-free. -/
theorem applyOp2_nodup (σ : MTR) (op : Op2) (hsafe : safeStep σ op = true)
    (hnd : (σ.receivers.map slotKey).Nodup) :
    ((applyOp2 σ op).receivers.map slotKey).Nodup := by
  cases op with
  | setup r p m =>
    simp only [applyOp2, setupReceiver]
    by_cases h : σ.state = .stateOpen
    · simp only [h, if_pos]
      have hperm : (List.insertionSort slotLE
          (if (upgradeFirst r σ.receivers).1 then (upgradeFirst r σ.receivers).2
            else σ.receivers ++ [⟨σ.nextSid, .real r, p⟩])).Perm
          (if (upgradeFirst r σ.receivers).1 then (upgradeFirst r σ.receivers).2
            else σ.receivers ++ [⟨σ.nextSid, .real r, p⟩]) :=
        List.perm_insertionSort slotLE _
      refine ((hperm.map slotKey).nodup_iff).2 ?_
      by_cases hu : (upgradeFirst r σ.receivers).1 = true
      · simp only [hu, if_pos]
        have hmaps := upgradeFirst_maps r σ.receivers
        have : (upgradeFirst r σ.receivers).2.map slotKey =
            σ.receivers.map slotKey := by
          have h1 := congrArg (List.map (fun p : Nat × Int × List Char => p.2.2))
            hmaps
          simpa [Function.comp] using h1
        rw [this]
        exact hnd
      · have hu' : (upgradeFirst r σ.receivers).1 = false := by
          simpa using hu
        simp only [hu', Bool.false_eq_true, if_neg, not_false_iff]
        obtain ⟨-, hnomatch⟩ := upgradeFirst_false r σ.receivers hu'
        have hsafe' : ∀ s ∈ σ.receivers,
            eqFold (slotMime s) r.codec.mimeType = true →
              s.inner.isDummy = true := by
          simpa [safeStep] using hsafe
        rw [List.map_append]
        refine nodup_concat_key hnd ?_
        intro hmem
        obtain ⟨s, hs, hks⟩ := List.mem_map.1 hmem
        have hmatch : eqFold (slotMime s) r.codec.mimeType = true := by
          rw [eqFold_iff]
          have : slotKey (⟨σ.nextSid, .real r, p⟩ : Slot) =
              strFold r.codec.mimeType := rfl
          rw [← this, ← hks]
          rfl
        have hdum : s.inner.isDummy = true := hsafe' s hs hmatch
        have hfalse := hnomatch s hs
        rw [hmatch, hdum] at hfalse
        cases hfalse
    · simp only [h, if_neg, not_false_iff]
      exact hnd
  | setPotential cs hh =>
    simp only [applyOp2, setPotentialCodecs]
    refine (((List.perm_insertionSort slotLE _).map slotKey).nodup_iff).2 ?_
    exact (addPotential_inv hh (hh.filter fun x => x ≠ ddExtensionURI)
      cs σ.receivers σ.nextSid 0).1 hnd

/-- Each slot survives the upgrade scan with its sid, priority and folded
mime intact. -/
theorem upgradeFirst_persist (r : Receiver) :
    ∀ rs : List Slot, ∀ s ∈ rs,
      ∃ s' ∈ (upgradeFirst r rs).2,
        s'.sid = s.sid ∧ s'.priority = s.priority ∧ slotKey s' = slotKey s
  | [] => by simp
  | x :: rest => by
    intro s hs
    simp only [upgradeFirst]
    by_cases hc : (eqFold (slotMime x) r.codec.mimeType && x.inner.isDummy) = true
    · rw [if_pos hc]
      rcases List.mem_cons.1 hs with rfl | hs'
      · exact ⟨{ s with inner := s.inner.upgrade r }, List.mem_cons_self _ _,
          rfl, rfl, slotKey_upgrade hc⟩
      · exact ⟨s, List.mem_cons_of_mem _ hs', rfl, rfl, rfl⟩
    · rw [if_neg hc]
      rcases List.mem_cons.1 hs with rfl | hs'
      · exact ⟨s, List.mem_cons_self _ _, rfl, rfl, rfl⟩
      · obtain ⟨s', hmem, h1, h2, h3⟩ := upgradeFirst_persist r rest s hs'
        exact ⟨s', List.mem_cons_of_mem _ hmem, h1, h2, h3⟩

/-- Each slot survives a C2 operation with its sid, priority and folded mime
intact. -/
theorem applyOp2_persist (σ : MTR) (op : Op2) (s : Slot) (hs : s ∈ σ.receivers) :
    ∃ s' ∈ (applyOp2 σ op).receivers,
      s'.sid = s.sid ∧ s'.priority = s.priority ∧ slotKey s' = slotKey s := by
  cases op with
  | setup r p m =>
    simp only [applyOp2, setupReceiver]
    by_cases h : σ.state = .stateOpen
    · simp only [h, if_pos]
      by_cases hu : (upgradeFirst r σ.receivers).1 = true
      · rw [if_pos hu]
        obtain ⟨s', hmem, h1, h2, h3⟩ := upgradeFirst_persist r σ.receivers s hs
        exact ⟨s', (List.mem_insertionSort slotLE).2 hmem, h1, h2, h3⟩
      · rw [if_neg hu]
        exact ⟨s, (List.mem_insertionSort slotLE).2 (List.mem_append_left _ hs),
          rfl, rfl, rfl⟩
    · simp only [h, if_neg, not_false_iff]
      exact ⟨s, hs, rfl, rfl, rfl⟩
  | setPotential cs hh =>
    simp only [applyOp2, setPotentialCodecs]
    have hmem := (addPotential_inv hh (hh.filter fun x => x ≠ ddExtensionURI)
      cs σ.receivers σ.nextSid 0).2 s hs
    exact ⟨s, (List.mem_insertionSort slotLE).2 hmem, rfl, rfl, rfl⟩

/-- Sortedness of the slot list is preserved along any C2 trace. -/
theorem execFrom_sorted : ∀ (ops : List Op2) (σ : MTR),
    List.Sorted slotLE σ.receivers →
    List.Sorted slotLE (execFrom σ ops).receivers
  | [], _, h => h
  | op :: ops, σ, h => execFrom_sorted ops _ (applyOp2_sorted σ op h)

/-- Key-uniqueness of the slot list is preserved along any collision-free C2
trace. -/
theorem execFrom_nodup : ∀ (ops : List Op2) (σ : MTR),
    safeTrace σ ops = true → (σ.receivers.map slotKey).Nodup →
    ((execFrom σ ops).receivers.map slotKey).Nodup
  | [], _, _, h => h
  | op :: ops, σ, hsafe, h => by
    rw [safeTrace, Bool.and_eq_true] at hsafe
    exact execFrom_nodup ops _ hsafe.2 (applyOp2_nodup σ op hsafe.1 h)

/-- Appending one operation to a trace applies it to the final state. -/
theorem exec2_append_op (ops : List Op2) (op : Op2) :
    exec2 (ops ++ [op]) = applyOp2 (exec2 ops) op := by
  simp [exec2, execFrom, List.foldl_append]

/-- C2 (amended): along every sequence of `SetupReceiver` /
`SetPotentialCodecs` calls from the empty slot list, the slot list stays
ordered ascending by priority and slot identity is stable (each slot survives
every further call with its sid, priority and folded mime); the
case-insensitive mime-uniqueness additionally holds whenever no
`SetupReceiver` call is made while a non-dummy slot with a matching mime
exists (such a call silently appends a duplicate slot). -/
theorem c2_slot_invariants (ops : List Op2) (op : Op2) (s : Slot) :
    List.Sorted slotLE (exec2 ops).receivers ∧
    (safeTrace init2 ops = true → ((exec2 ops).receivers.map slotKey).Nodup) ∧
    (s ∈ (exec2 ops).receivers →
      ∃ s' ∈ (exec2 (ops ++ [op])).receivers,
        s'.sid = s.sid ∧ s'.priority = s.priority ∧ slotKey s' = slotKey s) := by
  refine ⟨execFrom_sorted ops init2 (by simp [init2]),
    fun hsafe => execFrom_nodup ops init2 hsafe (by simp [init2]),
    fun hs => ?_⟩
  rw [exec2_append_op]
  exact applyOp2_persist (exec2 ops) op s hs

/-- C2 counterexample: two `SetupReceiver` calls with the same mime (the
second while a real VP8 slot already exists) leave two slots with the same
folded mime, refuting the unconditional mime-uniqueness of the claim. -/
theorem c2_counterexample :
    (exec2 dupOps).receivers.length = 2 ∧
    ¬ ((exec2 dupOps).receivers.map slotKey).Nodup := by
  constructor
  · decide
  · decide

/-- Witness for C2 on a collision-free trace: seed VP8/H264 placeholders,
upgrade VP8, then check all three invariant parts with a further H264
upgrade. -/
theorem c2_witness :
    safeTrace init2 ops2w = true ∧ s2w ∈ (exec2 ops2w).receivers ∧
    List.Sorted slotLE (exec2 ops2w).receivers ∧
    ((exec2 ops2w).receivers.map slotKey).Nodup ∧
    ∃ s' ∈ (exec2 (ops2w ++ [op2w])).receivers,
      s'.sid = s2w.sid ∧ s'.priority = s2w.priority ∧
        slotKey s' = slotKey s2w := by
  have h := c2_slot_invariants ops2w op2w s2w
  exact ⟨by decide, by decide, h.1, h.2.1 (by decide), h.2.2 (by decide)⟩

/-- Every state rank is at most 2. -/
theorem rank_le_two (s : MTRState) : s.rank ≤ 2 := by
  cases s <;> simp [MTRState.rank]

/-- The rank determines the state. -/
theorem rank_inj {a b : MTRState} (h : a.rank = b.rank) : a = b := by
  cases a <;> cases b <;> first | rfl | (exfalso; simp [MTRState.rank] at h)

/-- No C8 operation ever decreases the state rank. -/
theorem rank_step8 (σ : MTR) (op : Op8) :
    σ.state.rank ≤ (step8 σ op).state.rank := by
  cases op with
  | opSetClosing =>
    by_cases h : σ.state = .stateOpen
    · simp [step8, setClosing, h, MTRState.rank]
    · simp [step8, setClosing, h]
  | opClose =>
    by_cases h : σ.state = .stateClosed
    · simp [step8, close, h]
    · simp [step8, close, h]
      exact le_trans (rank_le_two _) (by simp [MTRState.rank])
  | opTryClose =>
    by_cases h : σ.state = .stateClosed
    · simp [step8, tryClose, h]
    · by_cases h2 : (σ.receivers.any fun s => s.inner.isUpgradedDummy) = true
      · simp [step8, tryClose, h, h2]
      · simp [step8, tryClose, close, h, h2]
        exact le_trans (rank_le_two _) (by simp [MTRState.rank])

/-- The trace always starts with the current state. -/
theorem trace8_head : ∀ (σ : MTR) (ops : List Op8),
    ∃ rest, trace8 σ ops = σ.state :: rest
  | _, [] => ⟨[], rfl⟩
  | _, _ :: _ => ⟨_, rfl⟩

/-- Along a trace, ranks are non-decreasing. -/
theorem trace8_chain : ∀ (ops : List Op8) (σ : MTR),
    List.Chain' (fun a b => a.rank ≤ b.rank) (trace8 σ ops)
  | [], σ => by simp [trace8]
  | op :: ops, σ => by
    obtain ⟨rest, hr⟩ := trace8_head (step8 σ op) ops
    have hchain := trace8_chain ops (step8 σ op)
    show List.Chain' _ (σ.state :: trace8 (step8 σ op) ops)
    rw [hr] at hchain ⊢
    exact List.chain'_cons.2 ⟨rank_step8 σ op, hchain⟩

/-- `collapse` keeps the head of a non-empty list. -/
theorem collapse_head : ∀ (a : MTRState) (t : List MTRState),
    ∃ rest, collapse (a :: t) = a :: rest
  | _, [] => ⟨[], rfl⟩
  | a, b :: t => by
    by_cases h : a = b
    · subst h
      obtain ⟨rest, hr⟩ := collapse_head a t
      exact ⟨rest, by rw [collapse, if_pos rfl, hr]⟩
    · exact ⟨collapse (b :: t), by rw [collapse, if_neg h]⟩

/-- Collapsing a rank-monotone list yields strictly increasing ranks. -/
theorem collapse_chain_lt : ∀ l : List MTRState,
    List.Chain' (fun a b => a.rank ≤ b.rank) l →
    List.Chain' (fun a b => a.rank < b.rank) (collapse l)
  | [] => fun _ => by simp [collapse]
  | [a] => fun _ => by simp [collapse]
  | a :: b :: t => fun h => by
    rw [List.chain'_cons] at h
    by_cases hab : a = b
    · rw [collapse, if_pos hab]
      exact collapse_chain_lt (b :: t) h.2
    · rw [collapse, if_neg hab]
      obtain ⟨rest, hr⟩ := collapse_head b t
      rw [hr]
      rw [List.chain'_cons]
      refine ⟨lt_of_le_of_ne h.1 fun heq => hab (rank_inj heq), ?_⟩
      rw [← hr]
      exact collapse_chain_lt (b :: t) h.2

/-- A list of states with strictly increasing ranks is a subsequence of
`[Open, Closing, Closed]`. -/
theorem chainLt_sublist : ∀ l : List MTRState,
    List.Chain' (fun a b => a.rank < b.rank) l →
    l.Sublist [MTRState.stateOpen, .stateClosing, .stateClosed]
  | [] => fun _ => List.nil_sublist _
  | [a] => fun _ => by cases a <;> decide
  | [a, b] => fun h => by
    have h1 : a.rank < b.rank := (List.chain'_cons.1 h).1
    cases a <;> cases b <;> first | decide | simp [MTRState.rank] at h1
  | [a, b, c] => fun h => by
    have h1 : a.rank < b.rank := (List.chain'_cons.1 h).1
    have h2 : b.rank < c.rank := (List.chain'_cons.1 (List.chain'_cons.1 h).2).1
    cases a <;> cases b <;> cases c <;>
      first | decide | simp [MTRState.rank] at h1 h2
  | a :: b :: c :: d :: t => fun h => by
    have h1 : a.rank < b.rank := (List.chain'_cons.1 h).1
    have h2 : b.rank < c.rank :=
      (List.chain'_cons.1 (List.chain'_cons.1 h).2).1
    have h3 : c.rank < d.rank :=
      (List.chain'_cons.1 (List.chain'_cons.1 (List.chain'_cons.1 h).2).2).1
    have h4 := rank_le_two d
    omega

/-- C8 (amended): from the initial Open state, along any sequence of
`SetClosing` / `Close` / `TryClose` calls the trace starts at Open and the
sequence of distinct states passed through is a *subsequence* of
`Open, Closing, Closed` — transitions only go forward and are never reversed
(`Close` may skip Closing, so the distinct-state sequence need not be a
prefix). -/
theorem c8_state_monotone (σ : MTR) (ops : List Op8)
    (h : σ.state = .stateOpen) :
    (trace8 σ ops).head? = some MTRState.stateOpen ∧
    List.Sublist (collapse (trace8 σ ops))
      [MTRState.stateOpen, .stateClosing, .stateClosed] := by
  constructor
  · obtain ⟨rest, hr⟩ := trace8_head σ ops
    rw [hr, h]
    rfl
  · exact chainLt_sublist _ (collapse_chain_lt _ (trace8_chain ops σ))

/-- C8 counterexample: calling `Close` directly from Open passes through the
distinct states `[Open, Closed]`, which is not a *prefix* of
`Open, Closing, Closed` as the claim states. -/
theorem c8_counterexample :
    collapse (trace8 init2 [Op8.opClose]) =
      [MTRState.stateOpen, .stateClosed] ∧
    List.isPrefixOf (collapse (trace8 init2 [Op8.opClose]))
      [MTRState.stateOpen, .stateClosing, .stateClosed] = false := by
  constructor
  · decide
  · decide

/-- Witness for C8: `SetClosing` then `TryClose` from the initial state. -/
theorem c8_witness :
    init2.state = MTRState.stateOpen ∧
    (trace8 init2 ops8w).head? = some MTRState.stateOpen ∧
    List.Sublist (collapse (trace8 init2 ops8w))
      [MTRState.stateOpen, .stateClosing, .stateClosed] :=
  ⟨rfl, (c8_state_monotone init2 ops8w rfl).1,
    (c8_state_monotone init2 ops8w rfl).2⟩

end MediaTrack
